import Mathlib

/-!
Shallow embedding of the modulee event bus (src/index.js).

The bus owns an insertion-ordered list of listeners, an association list of
installed plugin descriptors keyed by name, and a fresh-id counter. Callbacks
are modelled as pure functions over an arbitrary data type. Promises of pure
computations settle immediately, so a promise is modelled as a wrapper around
its settled value. Mutation of the bus is modelled by explicit state passing:
operations return the updated bus.
-/

/-- JS truthiness of a string: true exactly for nonempty strings. -/
def jsTruthy (s : String) : Bool := s ≠ ""

/-- JS strict equality between a Bool and a String: always false, since
the operands have different types and no coercion happens. Used to embed
the expression evaluated inside the filter of the off method. -/
def jsStrictEqBoolStr (_b : Bool) (_s : String) : Bool := false

/-- Accumulating loop of parseInt: consume leading decimal digits,
stopping at the first non-digit character. -/
def leadingDigitsAux (acc : Nat) : List Char → Nat
  | [] => acc
  | c :: cs => if c.isDigit then leadingDigitsAux (acc * 10 + (c.toNat - 48)) cs else acc

/-- Value of the leading run of decimal digits; none when the first
character is not a digit (parseInt returns NaN then). -/
def leadingDigits : List Char → Option Nat
  | [] => none
  | c :: cs => if c.isDigit then some (leadingDigitsAux (c.toNat - 48) cs) else none

/-- JS parseInt(token, 10): optional sign, then the leading run of decimal
digits; NaN (modelled as none) when no digit is consumed. Leading-whitespace
skipping is omitted: version segments never contain whitespace. -/
def jsParseInt (s : String) : Option Int :=
  match s.data with
  | [] => none
  | c :: cs =>
    if c = '-' then (leadingDigits cs).map (fun n => -(n : Int))
    else if c = '+' then (leadingDigits cs).map (fun n => (n : Int))
    else (leadingDigits (c :: cs)).map (fun n => (n : Int))

/-- JS strict inequality on numbers where none stands for NaN:
NaN compares unequal to everything, including NaN. -/
def jsNeq (a b : Option Int) : Bool :=
  match a, b with
  | some x, some y => x != y
  | _, _ => true

/-- JS greater-than on numbers where none stands for NaN:
any comparison involving NaN is false. -/
def jsGt (a b : Option Int) : Bool :=
  match a, b with
  | some x, some y => decide (x > y)
  | _, _ => false

/-- Accumulator loop of split on the dot: collect the current segment in
reverse until a dot or the end of the string. -/
def splitOnDotAux (cur : List Char) : List Char → List String
  | [] => [String.mk cur.reverse]
  | c :: cs =>
    if c = '.' then String.mk cur.reverse :: splitOnDotAux [] cs
    else splitOnDotAux (c :: cur) cs

/-- JS split on the dot separator: the list of segments between dots. -/
def splitOnDot (s : String) : List String := splitOnDotAux [] s.data

/-- The token array of a version string: split on the dot, parse each
segment with parseInt base 10. -/
def versionTokens (v : String) : List (Option Int) :=
  (splitOnDot v).map jsParseInt

/-- One iteration of the comparison loop of compareVersion at a given index:
a missing segment counts as 0; returns the verdict when the two numbers
differ under strict inequality, none to continue the loop. -/
def compareStep (tokensA tokensB : List (Option Int)) (index : Nat) : Option Int :=
  let numberA := tokensA.getD index (some 0)
  let numberB := tokensB.getD index (some 0)
  if jsNeq numberA numberB then some (if jsGt numberA numberB then 1 else -1) else none

/-- compareVersion from the source: the while loop over indices 0, 1, 2,
unrolled; returns 0 when no index produced a verdict. -/
def compareVersion (versionA versionB : String) : Int :=
  let tokensA := versionTokens versionA
  let tokensB := versionTokens versionB
  match compareStep tokensA tokensB 0 with
  | some r => r
  | none =>
    match compareStep tokensA tokensB 1 with
    | some r => r
    | none =>
      match compareStep tokensA tokensB 2 with
      | some r => r
      | none => 0

/-- A registered listener: mask, priority, callback and the unique id
assigned at registration. -/
structure Listener (α : Type) where
  mask : String
  priority : Int
  cb : α → α
  id : Nat

/-- A plugin descriptor: the record attached to a plugin by createPlugin.
Dependencies are an insertion-ordered list of (name, minimum version). -/
structure PluginDescriptor where
  name : String
  version : String
  dependencies : List (String × String)
deriving DecidableEq

/-- The bus state: insertion-ordered listeners, plugin descriptors keyed by
name, and the id counter. -/
structure Bus (α : Type) where
  listeners : List (Listener α)
  plugins : List (String × PluginDescriptor)
  id : Nat

/-- A plugin: the descriptor plus the installable body. The body receives
the bus and the options; it returns ok with the mutated bus, or error with
the bus as mutated up to the point where the body threw. -/
structure Plugin (α β : Type) where
  plugin : PluginDescriptor
  body : Bus α → β → Except (Bus α) (Bus α)

/-- createPlugin(name, version, dependencies, f): attach the descriptor to
the body. -/
def createPlugin (name version : String) (dependencies : List (String × String))
    (f : Bus α → β → Except (Bus α) (Bus α)) : Plugin α β :=
  ⟨⟨name, version, dependencies⟩, f⟩

/-- The constructor: empty listeners, empty plugins, counter at 0. -/
def Bus.new : Bus α := ⟨[], [], 0⟩

/-- on(mask, cb, priority): take a fresh id from the counter, append the
listener; returns the updated bus and the id captured by the disposer. -/
def Bus.on (bus : Bus α) (mask : String) (cb : α → α) (priority : Int) :
    Bus α × Nat :=
  let i := bus.id
  ({ bus with listeners := bus.listeners ++ [⟨mask, priority, cb, i⟩], id := i + 1 }, i)

/-- The disposer returned by on: filter out the listener with the captured
id and return the count of removed listeners. -/
def Bus.dispose (bus : Bus α) (i : Nat) : Bus α × Nat :=
  let oldLength := bus.listeners.length
  let remaining := bus.listeners.filter (fun l => l.id != i)
  ({ bus with listeners := remaining }, oldLength - remaining.length)

/-- The comparator of list as a sorting relation: the JS comparator
(a, b) => b.priority - a.priority orders by descending priority; the JS
sort is stable, which mergeSort with this relation reproduces. -/
def listenerLE (a b : Listener α) : Bool := decide (b.priority ≤ a.priority)

/-- list(event, doSort): the listeners whose mask strictly equals the
event, sorted by descending priority when doSort is set. -/
def Bus.list (bus : Bus α) (event : String) (doSort : Bool) : List (Listener α) :=
  if doSort then
    (bus.listeners.filter (fun l => l.mask == event)).mergeSort listenerLE
  else
    bus.listeners.filter (fun l => l.mask == event)

/-- A settled promise of a pure computation: just its value. All callbacks
in the embedding are pure, so every promise resolves immediately. -/
structure Promise (α : Type) where
  val : α

/-- emit(event, data): reduce over the sorted listeners, each step chaining
the callback onto the previous promise; seeded with a resolved promise of
the data. -/
def Bus.emit (bus : Bus α) (event : String) (data : α) : Promise α :=
  (bus.list event true).foldl
    (fun result listener => ⟨listener.cb result.val⟩) ⟨data⟩

/-- emitSync(event, data): reduce over the sorted listeners, each callback
applied to the previous result, seeded with the data. -/
def Bus.emitSync (bus : Bus α) (event : String) (data : α) : α :=
  (bus.list event true).foldl (fun result listener => listener.cb result) data

/-- emitParallel(event, data): every sorted listener applied to the same
original data, results collected in listener order inside one promise. -/
def Bus.emitParallel (bus : Bus α) (event : String) (data : α) : Promise (List α) :=
  ⟨(bus.list event true).map (fun l => l.cb data)⟩

/-- emitParallelSync(event, data): every sorted listener applied to the
same original data, results collected in listener order. -/
def Bus.emitParallelSync (bus : Bus α) (event : String) (data : α) : List α :=
  (bus.list event true).map (fun l => l.cb data)

/-- has(event): whether the unsorted listener list for the event is
nonempty. -/
def Bus.has (bus : Bus α) (event : String) : Bool :=
  (bus.list event false).length > 0

/-- off(event): keep the listeners satisfying the source predicate
!l.mask === event, which negates the truthiness of the mask and then
strictly compares that Bool against the event String. -/
def Bus.off (bus : Bus α) (event : String) : Bus α :=
  { bus with
    listeners := bus.listeners.filter
      (fun l => jsStrictEqBoolStr (!(jsTruthy l.mask)) event) }

/-- The error kinds raised by the plugin method. -/
inductive PluginError where
  | duplicatePlugin (name : String)
  | missingDependency (key : String) (requiredBy : String)
  | unmetVersion (key : String) (versionNeeded versionProvided : String)
  | bodyFailure
deriving DecidableEq

/-- Outcome of a plugin installation: ok with the final bus, or error
carrying the bus state at the moment the exception propagated. -/
inductive PluginResult (α : Type) where
  | ok (bus : Bus α)
  | error (e : PluginError) (bus : Bus α)

/-- Assignment into the plugins object: replace the value of an existing
key in place, or append a new key. -/
def setKey (m : List (String × PluginDescriptor)) (k : String)
    (v : PluginDescriptor) : List (String × PluginDescriptor) :=
  match m with
  | [] => [(k, v)]
  | (k₀, v₀) :: rest => if k₀ == k then (k, v) :: rest else (k₀, v₀) :: setKey rest k v

/-- The dependency loop of the plugin method: walk the dependencies in
order; throw MissingDependency when the key has no recorded descriptor,
UnmetVersion when the required version exceeds the provided one. -/
def checkDependencies (bus : Bus α) (plName : String) :
    List (String × String) → Option PluginError
  | [] => none
  | (key, versionNeeded) :: rest =>
    match List.lookup key bus.plugins with
    | none => some (.missingDependency key plName)
    | some descriptor =>
      if compareVersion versionNeeded descriptor.version > 0 then
        some (.unmetVersion key versionNeeded descriptor.version)
      else checkDependencies bus plName rest

/-- plugin(pl, options): duplicate check, then the dependency loop, then
the body, then the descriptor is recorded under its name. A validation
failure leaves the bus untouched; a body failure carries the bus exactly
as the body left it, with nothing recorded. -/
def Bus.plugin (bus : Bus α) (pl : Plugin α β) (options : β) : PluginResult α :=
  if (List.lookup pl.plugin.name bus.plugins).isSome then
    .error (.duplicatePlugin pl.plugin.name) bus
  else
    match checkDependencies bus pl.plugin.name pl.plugin.dependencies with
    | some e => .error e bus
    | none =>
      match pl.body bus options with
      | .error b => .error .bodyFailure b
      | .ok b => .ok { b with plugins := setKey b.plugins pl.plugin.name pl.plugin }

/-- Closure state of a once registration: the removed flag of the wrapper,
whether the wrapped listener is still registered (the disposer filters by
its unique id, so disposal removes exactly this listener), and a ghost
count of invocations of the underlying callback. -/
structure OnceState where
  removed : Bool
  present : Bool
  calls : Nat
deriving DecidableEq

/-- Initial state right after once(mask, cb, priority) registered the
wrapper: not removed, registered, callback never called. -/
def onceInit : OnceState := ⟨false, true, 0⟩

/-- The wrapper once registers in place of cb: on first invocation compute
the result of cb, dispose the registration, set the removed flag and
return the result; afterwards return the input unchanged. -/
def onceWrapper (cb : α → α) (s : OnceState) (d : α) : OnceState × α :=
  if !s.removed then
    let result := cb d
    (⟨true, false, s.calls + 1⟩, result)
  else (s, d)

/-- One emission of the masked event: it invokes the wrapper exactly when
the registration is still present. -/
def onceEmit (cb : α → α) (s : OnceState) (d : α) : OnceState × α :=
  if s.present then onceWrapper cb s d else (s, d)

/-- A sequence of emissions of the masked event, threaded through the
closure state. -/
def onceEmits (cb : α → α) (s : OnceState) : List α → OnceState
  | [] => s
  | d :: ds => onceEmits cb (onceEmit cb s d).fst ds

/-- Spec-side base-10 value of an all-digit segment. -/
def decValue (t : String) : Nat :=
  t.data.foldl (fun n c => n * 10 + (c.toNat - 48)) 0

/-- Spec-side segment of a version string at an index: the parsed segment,
or 0 when the segment is missing. -/
def specSeg (s : String) (i : Nat) : Nat :=
  decValue ((splitOnDot s).getD i "0")

/-- Comparator written from the words of the spec: compare the parsed
segments at indices 0, 1, 2 in order, a missing segment counting as 0;
return 1 or -1 at the first index where they differ, 0 otherwise, ignoring
every segment beyond index 2. -/
def specCompareVersion (a b : String) : Int :=
  if specSeg a 0 ≠ specSeg b 0 then (if specSeg a 0 > specSeg b 0 then 1 else -1)
  else if specSeg a 1 ≠ specSeg b 1 then (if specSeg a 1 > specSeg b 1 then 1 else -1)
  else if specSeg a 2 ≠ specSeg b 2 then (if specSeg a 2 > specSeg b 2 then 1 else -1)
  else 0

/-- A dotted-decimal version string: every segment a nonempty digit
string. -/
def isDottedDecimal (s : String) : Bool :=
  (splitOnDot s).all (fun t => t ≠ "" && t.data.all Char.isDigit)

/-- A dependency of a plugin is satisfied on a bus when the key has a
recorded descriptor whose version meets the required minimum. -/
def depSatisfied (bus : Bus α) (key versionNeeded : String) : Prop :=
  ∃ d, List.lookup key bus.plugins = some d ∧ compareVersion versionNeeded d.version ≤ 0

/-- The first violated dependency is (k, v) with k missing: every earlier
dependency is satisfied and k has no recorded descriptor. -/
def firstMissing (bus : Bus α) (deps : List (String × String)) (k : String) : Prop :=
  ∃ pre v suf, deps = pre ++ (k, v) :: suf ∧ (∀ p ∈ pre, depSatisfied bus p.1 p.2) ∧
    List.lookup k bus.plugins = none

/-- The first violated dependency is (k, vn) with the recorded version vp
too low: every earlier dependency is satisfied, k resolves to a descriptor
of version vp, and vn exceeds vp under compareVersion. -/
def firstUnmet (bus : Bus α) (deps : List (String × String)) (k vn vp : String) : Prop :=
  ∃ pre suf d, deps = pre ++ (k, vn) :: suf ∧ (∀ p ∈ pre, depSatisfied bus p.1 p.2) ∧
    List.lookup k bus.plugins = some d ∧ d.version = vp ∧ compareVersion vn vp > 0

/-! Concrete buses used in scenarios, counterexamples and witnesses. -/

/-- A bus holding a single listener registered on mask y. -/
def busY : Bus Int := ((Bus.new : Bus Int).on "y" (fun d => d) 0).fst

/-- The scenario bus: a priority-1 listener adding one and a priority-0
listener doubling, both on event x, registered in that order. -/
def busXY : Bus Int :=
  ((((Bus.new : Bus Int).on "x" (fun d => d + 1) 1).fst).on "x" (fun d => d * 2) 0).fst

/-- Claim C1: off(event) is claimed to remove exactly the listeners whose
mask equals the event. The code instead removes every listener: the filter
predicate !l.mask === event compares a Bool against a String and is always
false. On a bus whose only listener has mask y, off of x empties the
registry, although the mask differs from the event. -/
theorem off_clears_unrelated_mask :
    busY.listeners.length = 1 ∧ (busY.list "y" false).length = 1 ∧
    (busY.off "x").listeners = [] ∧ ((busY.off "x").list "y" false).length = 0 :=
  ⟨rfl, rfl, rfl, rfl⟩

/-- Claim C2 counterexample: off(event) is claimed to leave the listener
collection unchanged. On a bus with one registered listener, off removes
it, so the operation is not a no-op on the registry. -/
theorem off_is_not_noop :
    (busXY.off "x").listeners ≠ busXY.listeners ∧
    (busXY.off "x").listeners = [] ∧ busXY.listeners.length = 2 :=
  ⟨fun h => absurd (congrArg List.length h) (by decide), rfl, rfl⟩

/-- Claim C2 amended: off(event) removes every listener, of every mask:
the filter predicate !l.mask === event is always false, so the listener
collection afterwards is empty; the plugin collection and the id counter
are untouched. -/
theorem off_empties_registry (α : Type) (bus : Bus α) (event : String) :
    (bus.off event).listeners = [] ∧ (bus.off event).plugins = bus.plugins ∧
    (bus.off event).id = bus.id := by
  refine ⟨?_, rfl, rfl⟩
  simp [Bus.off, jsStrictEqBoolStr]

/-- Claim C5: emitSync(event, data) is the left fold of the callbacks of
the priority-sorted matching listeners over the data; in the scenario with
a priority-1 increment and a priority-0 doubling on event x, emitSync of 3
returns 8. -/
theorem emitSync_left_fold :
    (∀ (α : Type) (bus : Bus α) (event : String) (data : α),
      bus.emitSync event data = (bus.list event true).foldl (fun r l => l.cb r) data)
    ∧ busXY.emitSync "x" 3 = 8 := by
  constructor
  · intro α bus event data; rfl
  · show (busXY.list "x" true).foldl (fun r l => l.cb r) 3 = 8
    rw [show busXY.list "x" true
        = (busXY.listeners.filter (fun l => l.mask == "x")).mergeSort listenerLE from rfl]
    rw [List.mergeSort_of_sorted (by decide)]
    rfl

/-- Claim C6: both parallel strategies hand every sorted matching listener
the same original data and return the per-listener results in the
priority-sorted listener order; in the scenario, emitParallelSync of 3 on
event x returns the pair of 4 and 6. -/
theorem emitParallel_same_input_ordered :
    (∀ (α : Type) (bus : Bus α) (event : String) (data : α),
      bus.emitParallelSync event data = (bus.list event true).map (fun l => l.cb data)
      ∧ (bus.emitParallel event data).val = (bus.list event true).map (fun l => l.cb data))
    ∧ busXY.emitParallelSync "x" 3 = [4, 6] := by
  constructor
  · intro α bus event data; exact ⟨rfl, rfl⟩
  · show (busXY.list "x" true).map (fun l => l.cb 3) = [4, 6]
    rw [show busXY.list "x" true
        = (busXY.listeners.filter (fun l => l.mask == "x")).mergeSort listenerLE from rfl]
    rw [List.mergeSort_of_sorted (by decide)]
    rfl

/-- Claim C10: when no registered listener has the event as its mask, the
list of matching listeners is empty, emitSync returns the data unchanged,
emit resolves to the data, and both parallel strategies produce the empty
sequence. The embedding of the emission methods returns values only, so
the listener and plugin collections are untouched by construction. -/
theorem emit_no_matching_listeners (α : Type) (bus : Bus α) (event : String) (data : α)
    (h : ∀ l ∈ bus.listeners, l.mask ≠ event) :
    bus.list event true = [] ∧ bus.list event false = [] ∧
    bus.emitSync event data = data ∧ (bus.emit event data).val = data ∧
    bus.emitParallelSync event data = [] ∧ (bus.emitParallel event data).val = [] := by
  have hf : bus.listeners.filter (fun l => l.mask == event) = [] := by
    rw [List.filter_eq_nil_iff]
    intro a ha
    simpa using h a ha
  have h1 : bus.list event true = [] := by
    simp [Bus.list, hf]
  have h0 : bus.list event false = [] := by
    simp [Bus.list, hf]
  exact ⟨h1, h0, by simp [Bus.emitSync, h1], by simp [Bus.emit, h1],
    by simp [Bus.emitParallelSync, h1], by simp [Bus.emitParallel, h1]⟩

/-- Witness for claim C10 at a concrete bus: the only listener has mask y,
so emitting x is the identity or empty result. -/
theorem emit_no_matching_listeners_witness :
    (∀ l ∈ busY.listeners, l.mask ≠ "x") ∧
    (busY.list "x" true = [] ∧ busY.list "x" false = [] ∧
     busY.emitSync "x" (5 : Int) = 5 ∧ (busY.emit "x" (5 : Int)).val = 5 ∧
     busY.emitParallelSync "x" (5 : Int) = [] ∧ (busY.emitParallel "x" (5 : Int)).val = []) :=
  ⟨by decide, emit_no_matching_listeners Int busY "x" 5 (by decide)⟩

/-- The sorting relation of list is transitive. -/
theorem listenerLE_trans (a b c : Listener α) (hab : listenerLE a b = true)
    (hbc : listenerLE b c = true) : listenerLE a c = true := by
  simp only [listenerLE, decide_eq_true_eq] at *
  exact le_trans hbc hab

/-- The sorting relation of list is total. -/
theorem listenerLE_total (a b : Listener α) :
    (listenerLE a b || listenerLE b a) = true := by
  simp only [listenerLE, Bool.or_eq_true, decide_eq_true_eq]
  exact le_total b.priority a.priority

/-- Claim C7: list(event, true) holds exactly the registered listeners
whose mask equals the event (a permutation of the mask filter of the
registry), is ordered by descending priority, and is stable: for every
priority the sublist at that priority equals the corresponding filter of
the registry in registration order. -/
theorem list_sorted_stable (α : Type) (bus : Bus α) (event : String) :
    (bus.list event true).Perm (bus.listeners.filter (fun l => l.mask == event))
    ∧ (bus.list event true).Pairwise (fun a b => b.priority ≤ a.priority)
    ∧ ∀ p : Int, (bus.list event true).filter (fun l => l.priority == p)
        = bus.listeners.filter (fun l => l.mask == event && l.priority == p) := by
  have hdef : bus.list event true
      = (bus.listeners.filter (fun l => l.mask == event)).mergeSort listenerLE := rfl
  refine ⟨?_, ?_, ?_⟩
  · rw [hdef]
    exact List.mergeSort_perm _ _
  · rw [hdef]
    have := @List.sorted_mergeSort (Listener α) listenerLE listenerLE_trans listenerLE_total
      (bus.listeners.filter (fun l => l.mask == event))
    exact this.imp (by
      intro a b h
      simpa [listenerLE] using h)
  · intro p
    set F := bus.listeners.filter (fun l => l.mask == event) with hF
    set q : Listener α → Bool := fun l => l.priority == p with hq
    have hmem : ∀ a ∈ F.filter q, a.priority = p := by
      intro a ha
      have := List.of_mem_filter ha
      simpa [hq] using this
    have hpw : (F.filter q).Pairwise (fun a b => listenerLE a b = true) := by
      apply List.pairwise_of_forall_mem_list
      intro a ha b hb
      simp only [listenerLE, decide_eq_true_eq]
      rw [hmem a ha, hmem b hb]
    have hsub : (F.filter q).Sublist (F.mergeSort listenerLE) :=
      List.sublist_mergeSort listenerLE_trans listenerLE_total hpw (List.filter_sublist F)
    have hself : (F.filter q).filter q = F.filter q := by
      rw [List.filter_eq_self]
      intro a ha
      have := hmem a ha
      simp [hq, this]
    have hsub2 : (F.filter q).Sublist ((F.mergeSort listenerLE).filter q) := by
      rw [← hself]
      exact List.Sublist.filter q hsub
    have hlen : ((F.mergeSort listenerLE).filter q).length = (F.filter q).length :=
      ((List.mergeSort_perm F listenerLE).filter q).length_eq
    have heq : F.filter q = (F.mergeSort listenerLE).filter q :=
      hsub2.eq_of_length (by rw [hlen])
    rw [hdef, ← heq, List.filter_filter]
    apply List.filter_congr
    intro x hx
    exact Bool.and_comm _ _

/-- On an all-digit tail the digit loop of parseInt is the base-10 fold. -/
theorem leadingDigitsAux_eq_foldl (cs : List Char) :
    ∀ acc, (∀ c ∈ cs, c.isDigit) →
      leadingDigitsAux acc cs = cs.foldl (fun n c => n * 10 + (c.toNat - 48)) acc := by
  induction cs with
  | nil => intro acc _; rfl
  | cons c cs ih =>
    intro acc h
    have hc : c.isDigit := h c (by simp)
    simp only [leadingDigitsAux, hc, if_true, List.foldl_cons]
    exact ih _ (fun d hd => h d (by simp [hd]))

/-- On a nonempty all-digit segment, parseInt returns the base-10 value. -/
theorem jsParseInt_digits (t : String) (hne : t.data ≠ [])
    (hdig : ∀ c ∈ t.data, c.isDigit) :
    jsParseInt t = some ((decValue t : Nat) : Int) := by
  rcases t with ⟨data⟩
  match data, hne with
  | c :: cs, _ =>
    have hc : c.isDigit := hdig c (by simp)
    have hcm : c ≠ '-' := by
      intro h
      rw [h] at hc
      simp [Char.isDigit] at hc
    have hcp : c ≠ '+' := by
      intro h
      rw [h] at hc
      simp [Char.isDigit] at hc
    show jsParseInt (String.mk (c :: cs)) = _
    simp only [jsParseInt, hcm, hcp, if_false, leadingDigits, hc, if_true, Option.map_some]
    have := leadingDigitsAux_eq_foldl cs (c.toNat - 48)
      (fun d hd => hdig d (by simp [hd]))
    rw [this]
    simp [decValue]

/-- Tokens of a dotted-decimal version string: each of the first three
token positions holds exactly the spec segment value, with the missing
positions defaulting to 0. -/
theorem versionTokens_getD (a : String) (ha : isDottedDecimal a = true) (i : Nat) :
    (versionTokens a).getD i (some 0) = some ((specSeg a i : Nat) : Int) := by
  by_cases h : i < (splitOnDot a).length
  · have hseg : (splitOnDot a).getD i "0" = (splitOnDot a).get ⟨i, h⟩ := by
      rw [List.getD_eq_getElem?_getD, List.getElem?_eq_getElem h]
      rfl
    have hmem : (splitOnDot a).get ⟨i, h⟩ ∈ splitOnDot a := List.get_mem _ _ _
    have hii := List.all_eq_true.mp ha _ hmem
    obtain ⟨h1, h2⟩ : ((splitOnDot a).get ⟨i, h⟩ ≠ "")
        ∧ (((splitOnDot a).get ⟨i, h⟩).data.all Char.isDigit = true) := by
      simpa using hii
    have hne : ((splitOnDot a).get ⟨i, h⟩).data ≠ [] := by
      intro hd
      apply h1
      rcases hg : (splitOnDot a).get ⟨i, h⟩ with ⟨d⟩
      rw [hg] at hd
      simp only at hd
      rw [hd]
    have hdig : ∀ c ∈ ((splitOnDot a).get ⟨i, h⟩).data, c.isDigit := by
      intro c hcmem
      exact List.all_eq_true.mp h2 c hcmem
    have hmap : (versionTokens a).getD i (some 0) = jsParseInt ((splitOnDot a).get ⟨i, h⟩) := by
      rw [versionTokens, List.getD_eq_getElem?_getD, List.getElem?_map,
        List.getElem?_eq_getElem h]
      rfl
    rw [hmap, jsParseInt_digits _ hne hdig, specSeg, hseg]
  · have hout : (versionTokens a).getD i (some 0) = some 0 := by
      rw [versionTokens, List.getD_eq_getElem?_getD, List.getElem?_map]
      rw [List.getElem?_eq_none (by simpa using Nat.le_of_not_lt h)]
      rfl
    have hseg : specSeg a i = 0 := by
      rw [specSeg, List.getD_eq_getElem?_getD,
        List.getElem?_eq_none (Nat.le_of_not_lt h)]
      rfl
    rw [hout, hseg]
    simp

/-- On dotted-decimal inputs one iteration of the comparison loop agrees
with the spec comparison of the segments at that index. -/
theorem compareStep_spec (a b : String) (ha : isDottedDecimal a = true)
    (hb : isDottedDecimal b = true) (i : Nat) :
    compareStep (versionTokens a) (versionTokens b) i
      = if specSeg a i ≠ specSeg b i
        then some (if specSeg a i > specSeg b i then 1 else -1) else none := by
  rw [compareStep]
  simp only [versionTokens_getD a ha i, versionTokens_getD b hb i]
  by_cases h : specSeg a i = specSeg b i
  · simp [jsNeq, h]
  · have hne : (((specSeg a i : Nat) : Int) != ((specSeg b i : Nat) : Int)) = true := by
      rw [bne_iff_ne]
      exact_mod_cast h
    by_cases hgt : specSeg a i > specSeg b i
    · simp [jsNeq, jsGt, h, hgt, hne, Nat.cast_lt]
    · simp [jsNeq, jsGt, h, hgt, hne, Nat.cast_lt]

/-- Claim C8: on dotted-decimal version strings, compareVersion agrees
with the spec comparison of the base-10 parsed segments at indices 0, 1,
2, a missing segment counting as 0 and later segments ignored; and the
three quoted examples evaluate as stated. -/
theorem compareVersion_matches_spec :
    (∀ a b : String, isDottedDecimal a = true → isDottedDecimal b = true →
      compareVersion a b = specCompareVersion a b)
    ∧ compareVersion "1.2.0" "1.2" = 0
    ∧ compareVersion "2.0.0" "1.9.9" = 1
    ∧ compareVersion "1.0" "1.0.1" = -1 := by
  refine ⟨?_, by decide, by decide, by decide⟩
  intro a b ha hb
  have h0 := compareStep_spec a b ha hb 0
  have h1 := compareStep_spec a b ha hb 1
  have h2 := compareStep_spec a b ha hb 2
  rw [compareVersion]
  simp only [h0, h1, h2, specCompareVersion]
  by_cases e0 : specSeg a 0 = specSeg b 0
  · by_cases e1 : specSeg a 1 = specSeg b 1
    · by_cases e2 : specSeg a 2 = specSeg b 2
      · simp [e0, e1, e2]
      · simp [e0, e1, e2]
    · simp [e0, e1]
  · simp [e0]

/-- Witness for claim C8 at concrete dotted-decimal inputs: the numeric
comparison sees ten above two in the second segment. -/
theorem compareVersion_matches_spec_witness :
    isDottedDecimal "1.2.3" = true ∧ isDottedDecimal "1.10" = true ∧
    compareVersion "1.2.3" "1.10" = specCompareVersion "1.2.3" "1.10" ∧
    compareVersion "1.2.3" "1.10" = -1 :=
  ⟨by decide, by decide,
    compareVersion_matches_spec.1 "1.2.3" "1.10" (by decide) (by decide), by decide⟩

/-- Once the removed flag is set, further emissions leave the closure
state untouched. -/
theorem onceEmits_of_removed (cb : α → α) (ds : List α) :
    ∀ s : OnceState, s.removed = true → onceEmits cb s ds = s := by
  induction ds with
  | nil => intro s _; rfl
  | cons d ds ih =>
    intro s hs
    have hstep : (onceEmit cb s d).fst = s := by
      rw [onceEmit, onceWrapper, hs]
      by_cases hp : s.present = true
      · simp [hp]
      · simp [hp]
    rw [onceEmits, hstep]
    exact ih s hs

/-- Claim C9: across any sequence of emissions of the masked event, the
callback wrapped by once runs at most once; the first invocation of the
wrapper computes the callback result, disposes the registration and sets
the removed flag; an invocation of an already removed wrapper returns the
input unchanged and does not call the callback. -/
theorem once_callback_at_most_once (α : Type) (cb : α → α) :
    (∀ ds : List α, (onceEmits cb onceInit ds).calls ≤ 1)
    ∧ (∀ (s : OnceState) (d : α), s.removed = false →
        onceWrapper cb s d = (⟨true, false, s.calls + 1⟩, cb d))
    ∧ (∀ (s : OnceState) (d : α), s.removed = true →
        onceWrapper cb s d = (s, d)) := by
  refine ⟨?_, ?_, ?_⟩
  · intro ds
    cases ds with
    | nil => exact Nat.zero_le 1
    | cons d ds =>
      have hfirst : (onceEmit cb onceInit d).fst = ⟨true, false, 1⟩ := rfl
      rw [onceEmits, hfirst, onceEmits_of_removed cb ds _ rfl]
  · intro s d hs
    rw [onceWrapper, hs]
    rfl
  · intro s d hs
    rw [onceWrapper, hs]
    rfl

/-- Witness for claim C9: three emissions after a single once registration
invoke the underlying callback exactly once; the wrapper behaves as stated
on concrete fresh and removed states. -/
theorem once_callback_at_most_once_witness :
    (onceEmits (fun n : Int => n + 1) onceInit [0, 1, 2]).calls ≤ 1 ∧
    ((⟨false, true, 0⟩ : OnceState).removed = false ∧
      onceWrapper (fun n : Int => n + 1) ⟨false, true, 0⟩ 5 = (⟨true, false, 1⟩, 6)) ∧
    ((⟨true, false, 1⟩ : OnceState).removed = true ∧
      onceWrapper (fun n : Int => n + 1) ⟨true, false, 1⟩ 7 = (⟨true, false, 1⟩, 7)) :=
  ⟨(once_callback_at_most_once Int (fun n => n + 1)).1 [0, 1, 2],
   ⟨rfl, (once_callback_at_most_once Int (fun n => n + 1)).2.1 ⟨false, true, 0⟩ 5 rfl⟩,
   ⟨rfl, (once_callback_at_most_once Int (fun n => n + 1)).2.2 ⟨true, false, 1⟩ 7 rfl⟩⟩

/-- The dependency loop succeeds exactly when every dependency is
satisfied. -/
theorem checkDependencies_none_iff (bus : Bus α) (n : String)
    (deps : List (String × String)) :
    checkDependencies bus n deps = none ↔ ∀ p ∈ deps, depSatisfied bus p.1 p.2 := by
  induction deps with
  | nil => simp [checkDependencies]
  | cons p rest ih =>
    obtain ⟨key, vn⟩ := p
    cases hlk : List.lookup key bus.plugins with
    | none =>
      simp only [checkDependencies, hlk]
      constructor
      · intro h
        exact absurd h (by simp)
      · intro h
        obtain ⟨d, hd, _⟩ := h (key, vn) (by simp)
        rw [hlk] at hd
        exact absurd hd (by simp)
    | some descriptor =>
      by_cases hcv : compareVersion vn descriptor.version > 0
      · simp only [checkDependencies, hlk, if_pos hcv]
        constructor
        · intro h
          exact absurd h (by simp)
        · intro h
          obtain ⟨d, hd, hle⟩ := h (key, vn) (by simp)
          rw [hlk] at hd
          injection hd with hd
          rw [← hd] at hle
          exact absurd hcv (not_lt.mpr hle)
      · simp only [checkDependencies, hlk, if_neg hcv]
        rw [ih]
        constructor
        · intro h q hq
          rcases List.mem_cons.mp hq with hq1 | hq2
          · rw [hq1]
            exact ⟨descriptor, hlk, not_lt.mp hcv⟩
          · exact h q hq2
        · intro h q hq
          exact h q (List.mem_cons_of_mem _ hq)

/-- The dependency loop reports a missing dependency exactly for the first
violated dependency, when that one has no recorded descriptor. -/
theorem checkDependencies_missing_iff (bus : Bus α) (n : String)
    (deps : List (String × String)) (k m : String) :
    checkDependencies bus n deps = some (.missingDependency k m)
      ↔ m = n ∧ firstMissing bus deps k := by
  induction deps with
  | nil =>
    constructor
    · intro h
      exact absurd h (by simp [checkDependencies])
    · rintro ⟨_, pre, v, suf, hd, _, _⟩
      exact absurd hd.symm (by simp)
  | cons p rest ih =>
    obtain ⟨key, vn⟩ := p
    cases hlk : List.lookup key bus.plugins with
    | none =>
      simp only [checkDependencies, hlk]
      constructor
      · intro h
        injection h with h1
        injection h1 with h2 h3
        refine ⟨h3.symm, [], vn, rest, ?_, ?_, ?_⟩
        · rw [h2, List.nil_append]
        · intro q hq
          exact absurd hq (List.not_mem_nil q)
        · rw [← h2]
          exact hlk
      · rintro ⟨hm, pre, v, suf, hd, hpre, hk⟩
        cases pre with
        | nil =>
          simp only [List.nil_append] at hd
          injection hd with hd1 hd2
          injection hd1 with hk1 hv1
          rw [hm, hk1]
        | cons q pre₀ =>
          simp only [List.cons_append] at hd
          injection hd with hd1 hd2
          have hq := hpre q (List.mem_cons_self q pre₀)
          rw [← hd1] at hq
          obtain ⟨d, hd', _⟩ := hq
          rw [hlk] at hd'
          exact absurd hd' (by simp)
    | some descriptor =>
      by_cases hcv : compareVersion vn descriptor.version > 0
      · simp only [checkDependencies, hlk, if_pos hcv]
        constructor
        · intro h
          injection h with h1
          exact absurd h1 (by simp)
        · rintro ⟨hm, pre, v, suf, hd, hpre, hk⟩
          cases pre with
          | nil =>
            simp only [List.nil_append] at hd
            injection hd with hd1 hd2
            injection hd1 with hk1 hv1
            rw [← hk1] at hk
            rw [hlk] at hk
            exact absurd hk (by simp)
          | cons q pre₀ =>
            simp only [List.cons_append] at hd
            injection hd with hd1 hd2
            have hq := hpre q (List.mem_cons_self q pre₀)
            rw [← hd1] at hq
            obtain ⟨d, hd', hle⟩ := hq
            rw [hlk] at hd'
            injection hd' with hd'
            rw [← hd'] at hle
            exact absurd hcv (not_lt.mpr hle)
      · simp only [checkDependencies, hlk, if_neg hcv]
        rw [ih]
        constructor
        · rintro ⟨hm, pre, v, suf, hd, hpre, hk⟩
          refine ⟨hm, (key, vn) :: pre, v, suf, ?_, ?_, hk⟩
          · rw [List.cons_append, hd]
          · intro q hq
            rcases List.mem_cons.mp hq with h1 | h2
            · rw [h1]
              exact ⟨descriptor, hlk, not_lt.mp hcv⟩
            · exact hpre q h2
        · rintro ⟨hm, pre, v, suf, hd, hpre, hk⟩
          cases pre with
          | nil =>
            simp only [List.nil_append] at hd
            injection hd with hd1 hd2
            injection hd1 with hk1 hv1
            rw [← hk1] at hk
            rw [hlk] at hk
            exact absurd hk (by simp)
          | cons q pre₀ =>
            simp only [List.cons_append] at hd
            injection hd with hd1 hd2
            refine ⟨hm, pre₀, v, suf, hd2, ?_, hk⟩
            intro q₀ hq₀
            exact hpre q₀ (List.mem_cons_of_mem q hq₀)

/-- The dependency loop reports an unmet version exactly for the first
violated dependency, when that one resolves to a descriptor whose version
is below the required minimum. -/
theorem checkDependencies_unmet_iff (bus : Bus α) (n : String)
    (deps : List (String × String)) (k vn vp : String) :
    checkDependencies bus n deps = some (.unmetVersion k vn vp)
      ↔ firstUnmet bus deps k vn vp := by
  induction deps with
  | nil =>
    constructor
    · intro h
      exact absurd h (by simp [checkDependencies])
    · rintro ⟨pre, suf, d, hd, _, _, _, _⟩
      exact absurd hd.symm (by simp)
  | cons p rest ih =>
    obtain ⟨key, w⟩ := p
    cases hlk : List.lookup key bus.plugins with
    | none =>
      simp only [checkDependencies, hlk]
      constructor
      · intro h
        injection h with h1
        exact absurd h1 (by simp)
      · rintro ⟨pre, suf, d, hd, hpre, hk, hv, hgt⟩
        cases pre with
        | nil =>
          simp only [List.nil_append] at hd
          injection hd with hd1 hd2
          injection hd1 with hk1 hv1
          rw [← hk1] at hk
          rw [hlk] at hk
          exact absurd hk (by simp)
        | cons q pre₀ =>
          simp only [List.cons_append] at hd
          injection hd with hd1 hd2
          have hq := hpre q (List.mem_cons_self q pre₀)
          rw [← hd1] at hq
          obtain ⟨d₀, hd', _⟩ := hq
          rw [hlk] at hd'
          exact absurd hd' (by simp)
    | some descriptor =>
      by_cases hcv : compareVersion w descriptor.version > 0
      · simp only [checkDependencies, hlk, if_pos hcv]
        constructor
        · intro h
          injection h with h1
          injection h1 with e1 e2 e3
          refine ⟨[], rest, descriptor, ?_, ?_, ?_, e3, ?_⟩
          · rw [e1, e2, List.nil_append]
          · intro q hq
            exact absurd hq (List.not_mem_nil q)
          · rw [← e1]
            exact hlk
          · rw [← e2, ← e3]
            exact hcv
        · rintro ⟨pre, suf, d, hd, hpre, hk, hv, hgt⟩
          cases pre with
          | nil =>
            simp only [List.nil_append] at hd
            injection hd with hd1 hd2
            injection hd1 with hk1 hv1
            rw [← hk1] at hk
            rw [hlk] at hk
            injection hk with hk
            rw [hk1, hv1, ← hv, hk]
          | cons q pre₀ =>
            simp only [List.cons_append] at hd
            injection hd with hd1 hd2
            have hq := hpre q (List.mem_cons_self q pre₀)
            rw [← hd1] at hq
            obtain ⟨d₀, hd', hle⟩ := hq
            rw [hlk] at hd'
            injection hd' with hd'
            rw [← hd'] at hle
            exact absurd hcv (not_lt.mpr hle)
      · simp only [checkDependencies, hlk, if_neg hcv]
        rw [ih]
        constructor
        · rintro ⟨pre, suf, d, hd, hpre, hk, hv, hgt⟩
          refine ⟨(key, w) :: pre, suf, d, ?_, ?_, hk, hv, hgt⟩
          · rw [List.cons_append, hd]
          · intro q hq
            rcases List.mem_cons.mp hq with h1 | h2
            · rw [h1]
              exact ⟨descriptor, hlk, not_lt.mp hcv⟩
            · exact hpre q h2
        · rintro ⟨pre, suf, d, hd, hpre, hk, hv, hgt⟩
          cases pre with
          | nil =>
            simp only [List.nil_append] at hd
            injection hd with hd1 hd2
            injection hd1 with hk1 hv1
            rw [← hk1] at hk
            rw [hlk] at hk
            injection hk with hk
            rw [← hv1, ← hv, ← hk] at hgt
            exact absurd hgt hcv
          | cons q pre₀ =>
            simp only [List.cons_append] at hd
            injection hd with hd1 hd2
            refine ⟨pre₀, suf, d, hd2, ?_, hk, hv, hgt⟩
            intro q₀ hq₀
            exact hpre q₀ (List.mem_cons_of_mem q hq₀)

/-- Unfolding of plugin when the name is already installed: the duplicate
error, bus unchanged. -/
theorem plugin_eq_dup (bus : Bus α) (pl : Plugin α β) (options : β)
    (d : PluginDescriptor) (hlk : List.lookup pl.plugin.name bus.plugins = some d) :
    bus.plugin pl options = .error (.duplicatePlugin pl.plugin.name) bus := by
  rw [Bus.plugin, hlk]
  rfl

/-- Unfolding of plugin when the name is fresh and the dependency loop
throws: that error, bus unchanged. -/
theorem plugin_eq_depError (bus : Bus α) (pl : Plugin α β) (options : β)
    (e : PluginError) (hlk : List.lookup pl.plugin.name bus.plugins = none)
    (hcd : checkDependencies bus pl.plugin.name pl.plugin.dependencies = some e) :
    bus.plugin pl options = .error e bus := by
  rw [Bus.plugin, hlk, hcd]
  rfl

/-- Unfolding of plugin when validation passes and the body throws: the
body failure, carrying the bus exactly as the body left it. -/
theorem plugin_eq_bodyError (bus : Bus α) (pl : Plugin α β) (options : β)
    (b : Bus α) (hlk : List.lookup pl.plugin.name bus.plugins = none)
    (hcd : checkDependencies bus pl.plugin.name pl.plugin.dependencies = none)
    (hb : pl.body bus options = .error b) :
    bus.plugin pl options = .error .bodyFailure b := by
  rw [Bus.plugin, hlk, hcd, hb]
  rfl

/-- Unfolding of plugin when validation passes and the body returns: the
descriptor is recorded under its name in the state the body produced. -/
theorem plugin_eq_ok (bus : Bus α) (pl : Plugin α β) (options : β)
    (b : Bus α) (hlk : List.lookup pl.plugin.name bus.plugins = none)
    (hcd : checkDependencies bus pl.plugin.name pl.plugin.dependencies = none)
    (hb : pl.body bus options = .ok b) :
    bus.plugin pl options = .ok { b with plugins := setKey b.plugins pl.plugin.name pl.plugin } := by
  rw [Bus.plugin, hlk, hcd, hb]
  rfl

/-- The dependency loop only ever throws the missing-dependency or
unmet-version kinds. -/
theorem checkDependencies_shape (bus : Bus α) (n : String)
    (deps : List (String × String)) (e : PluginError)
    (h : checkDependencies bus n deps = some e) :
    (∀ m, e ≠ .duplicatePlugin m) ∧ e ≠ .bodyFailure := by
  induction deps with
  | nil => exact absurd h (by simp [checkDependencies])
  | cons p rest ih =>
    obtain ⟨key, vn⟩ := p
    rw [checkDependencies] at h
    split at h
    · injection h with h
      rw [← h]
      exact ⟨fun m => by simp, by simp⟩
    · split at h
      · injection h with h
        rw [← h]
        exact ⟨fun m => by simp, by simp⟩
      · exact ih h

/-- Claim C3: plugin(pl, options) fails with DuplicatePlugin exactly when
the descriptor name is already recorded; otherwise it fails with
MissingDependency exactly when the first violated dependency has no
recorded descriptor, and with UnmetVersion exactly when the first violated
dependency resolves to a descriptor whose version is below the required
minimum under compareVersion; when no condition holds and the body
returns, the install succeeds and records the descriptor. -/
theorem plugin_failure_iff (α β : Type) (bus : Bus α) (pl : Plugin α β) (options : β) :
    (bus.plugin pl options = .error (.duplicatePlugin pl.plugin.name) bus
       ↔ (List.lookup pl.plugin.name bus.plugins).isSome = true)
    ∧ (List.lookup pl.plugin.name bus.plugins = none →
        (∀ k, bus.plugin pl options = .error (.missingDependency k pl.plugin.name) bus
           ↔ firstMissing bus pl.plugin.dependencies k)
        ∧ (∀ k vn vp, bus.plugin pl options = .error (.unmetVersion k vn vp) bus
           ↔ firstUnmet bus pl.plugin.dependencies k vn vp)
        ∧ ((∀ p ∈ pl.plugin.dependencies, depSatisfied bus p.1 p.2) →
            ∀ b, pl.body bus options = .ok b →
              bus.plugin pl options
                = .ok { b with plugins := setKey b.plugins pl.plugin.name pl.plugin })) := by
  constructor
  · constructor
    · intro h
      cases hlk : List.lookup pl.plugin.name bus.plugins with
      | some d => rfl
      | none =>
        exfalso
        cases hcd : checkDependencies bus pl.plugin.name pl.plugin.dependencies with
        | some e =>
          rw [plugin_eq_depError bus pl options e hlk hcd] at h
          injection h with he hbus
          exact (checkDependencies_shape bus _ _ e hcd).1 pl.plugin.name he
        | none =>
          cases hb : pl.body bus options with
          | error b =>
            rw [plugin_eq_bodyError bus pl options b hlk hcd hb] at h
            injection h with he hbus
            exact absurd he (by simp)
          | ok b =>
            rw [plugin_eq_ok bus pl options b hlk hcd hb] at h
            exact PluginResult.noConfusion h
    · intro h
      cases hlk : List.lookup pl.plugin.name bus.plugins with
      | none =>
        rw [hlk] at h
        exact absurd h (by simp)
      | some d => exact plugin_eq_dup bus pl options d hlk
  · intro hlk
    refine ⟨?_, ?_, ?_⟩
    · intro k
      constructor
      · intro h
        cases hcd : checkDependencies bus pl.plugin.name pl.plugin.dependencies with
        | some e =>
          rw [plugin_eq_depError bus pl options e hlk hcd] at h
          injection h with he hbus
          rw [he] at hcd
          exact ((checkDependencies_missing_iff bus pl.plugin.name
            pl.plugin.dependencies k pl.plugin.name).mp hcd).2
        | none =>
          cases hb : pl.body bus options with
          | error b =>
            rw [plugin_eq_bodyError bus pl options b hlk hcd hb] at h
            injection h with he hbus
            exact absurd he (by simp)
          | ok b =>
            rw [plugin_eq_ok bus pl options b hlk hcd hb] at h
            exact PluginResult.noConfusion h
      · intro h
        exact plugin_eq_depError bus pl options _ hlk
          ((checkDependencies_missing_iff bus pl.plugin.name
            pl.plugin.dependencies k pl.plugin.name).mpr ⟨rfl, h⟩)
    · intro k vn vp
      constructor
      · intro h
        cases hcd : checkDependencies bus pl.plugin.name pl.plugin.dependencies with
        | some e =>
          rw [plugin_eq_depError bus pl options e hlk hcd] at h
          injection h with he hbus
          rw [he] at hcd
          exact (checkDependencies_unmet_iff bus pl.plugin.name
            pl.plugin.dependencies k vn vp).mp hcd
        | none =>
          cases hb : pl.body bus options with
          | error b =>
            rw [plugin_eq_bodyError bus pl options b hlk hcd hb] at h
            injection h with he hbus
            exact absurd he (by simp)
          | ok b =>
            rw [plugin_eq_ok bus pl options b hlk hcd hb] at h
            exact PluginResult.noConfusion h
      · intro h
        exact plugin_eq_depError bus pl options _ hlk
          ((checkDependencies_unmet_iff bus pl.plugin.name
            pl.plugin.dependencies k vn vp).mpr h)
    · intro hall b hb
      exact plugin_eq_ok bus pl options b hlk
        ((checkDependencies_none_iff bus pl.plugin.name pl.plugin.dependencies).mpr hall) hb

/-- A plugin with no dependencies and a body that registers nothing. -/
def pluginA : Plugin Int Unit := ⟨⟨"a", "1.0.0", []⟩, fun bus _ => .ok bus⟩

/-- A plugin that depends on plugin a at version 1.0.0. -/
def pluginP : Plugin Int Unit := ⟨⟨"p", "1.0.0", [("a", "1.0.0")]⟩, fun bus _ => .ok bus⟩

/-- Witness for claim C3: installing the dependent plugin on an empty bus
fails with MissingDependency for its first dependency. -/
theorem plugin_failure_iff_witness :
    List.lookup "p" (Bus.new : Bus Int).plugins = none ∧
    (Bus.new : Bus Int).plugin pluginP ()
      = .error (.missingDependency "a" "p") (Bus.new : Bus Int) :=
  ⟨rfl, (((plugin_failure_iff Int Unit Bus.new pluginP ()).2 rfl).1 "a").mpr
    ⟨[], "1.0.0", [], rfl, fun q hq => absurd hq (List.not_mem_nil q), rfl⟩⟩

/-- Looking up a key right after assigning it yields the assigned value. -/
theorem lookup_setKey (m : List (String × PluginDescriptor)) (k : String)
    (v : PluginDescriptor) : List.lookup k (setKey m k v) = some v := by
  induction m with
  | nil => simp [setKey, List.lookup]
  | cons p rest ih =>
    obtain ⟨k₀, v₀⟩ := p
    by_cases h : k₀ = k
    · simp [setKey, h, List.lookup]
    · have hb : (k₀ == k) = false := beq_eq_false_iff_ne.mpr h
      have hb2 : (k == k₀) = false := beq_eq_false_iff_ne.mpr (fun he => h he.symm)
      simp [setKey, hb, List.lookup, hb2, ih]

/-- Claim C4: the duplicate check and the dependency loop complete before
the body runs, and the descriptor is recorded only after the body returns.
A validation failure surfaces with the bus unchanged and the same result
for any body; a body failure surfaces the bus exactly as the body left it,
with no descriptor recorded by the install itself; a returning body is
followed by the descriptor being recorded under the plugin name. -/
theorem plugin_validation_before_body (α β : Type) (bus : Bus α) (pl : Plugin α β)
    (options : β) :
    ((List.lookup pl.plugin.name bus.plugins).isSome = true →
       bus.plugin pl options = .error (.duplicatePlugin pl.plugin.name) bus
       ∧ ∀ body2, bus.plugin ⟨pl.plugin, body2⟩ options = bus.plugin pl options)
    ∧ (∀ e, List.lookup pl.plugin.name bus.plugins = none →
        checkDependencies bus pl.plugin.name pl.plugin.dependencies = some e →
        bus.plugin pl options = .error e bus
        ∧ ∀ body2, bus.plugin ⟨pl.plugin, body2⟩ options = bus.plugin pl options)
    ∧ (∀ b, List.lookup pl.plugin.name bus.plugins = none →
        checkDependencies bus pl.plugin.name pl.plugin.dependencies = none →
        pl.body bus options = .error b →
        bus.plugin pl options = .error .bodyFailure b
        ∧ (List.lookup pl.plugin.name b.plugins = none →
            ∀ e b₂, bus.plugin pl options = .error e b₂ →
              List.lookup pl.plugin.name b₂.plugins = none))
    ∧ (∀ b, List.lookup pl.plugin.name bus.plugins = none →
        checkDependencies bus pl.plugin.name pl.plugin.dependencies = none →
        pl.body bus options = .ok b →
        bus.plugin pl options = .ok { b with plugins := setKey b.plugins pl.plugin.name pl.plugin }
        ∧ List.lookup pl.plugin.name (setKey b.plugins pl.plugin.name pl.plugin)
            = some pl.plugin) := by
  refine ⟨?_, ?_, ?_, ?_⟩
  · intro h
    obtain ⟨d, hd⟩ := Option.isSome_iff_exists.mp h
    refine ⟨plugin_eq_dup bus pl options d hd, ?_⟩
    intro body2
    rw [plugin_eq_dup bus pl options d hd, plugin_eq_dup bus ⟨pl.plugin, body2⟩ options d hd]
  · intro e hlk hcd
    refine ⟨plugin_eq_depError bus pl options e hlk hcd, ?_⟩
    intro body2
    rw [plugin_eq_depError bus pl options e hlk hcd,
      plugin_eq_depError bus ⟨pl.plugin, body2⟩ options e hlk hcd]
  · intro b hlk hcd hb
    have hres := plugin_eq_bodyError bus pl options b hlk hcd hb
    refine ⟨hres, ?_⟩
    intro hnb e b₂ h₂
    rw [hres] at h₂
    injection h₂ with he hbus
    rw [← hbus]
    exact hnb
  · intro b hlk hcd hb
    exact ⟨plugin_eq_ok bus pl options b hlk hcd hb, lookup_setKey _ _ _⟩

/-- A plugin whose body registers a listener on mask z and then throws. -/
def pluginQ : Plugin Int Unit :=
  ⟨⟨"q", "1.0.0", []⟩, fun bus _ => .error ((bus.on "z" (fun d => d) 0).fst)⟩

/-- The bus state the body of pluginQ leaves behind when it throws. -/
def busZ : Bus Int := ((Bus.new : Bus Int).on "z" (fun d => d) 0).fst

/-- Witness for claim C4: installing pluginQ on an empty bus passes
validation, the body throws after registering its listener, and the call
surfaces the body failure carrying that state with no descriptor
recorded. -/
theorem plugin_validation_before_body_witness :
    (List.lookup "q" (Bus.new : Bus Int).plugins = none ∧
     checkDependencies (Bus.new : Bus Int) "q" ([] : List (String × String)) = none ∧
     pluginQ.body (Bus.new : Bus Int) () = .error busZ) ∧
    ((Bus.new : Bus Int).plugin pluginQ () = .error .bodyFailure busZ
     ∧ (List.lookup "q" busZ.plugins = none →
         ∀ e b₂, (Bus.new : Bus Int).plugin pluginQ () = .error e b₂ →
           List.lookup "q" b₂.plugins = none)) :=
  ⟨⟨rfl, rfl, rfl⟩,
    (plugin_validation_before_body Int Unit Bus.new pluginQ ()).2.2.1 busZ rfl rfl rfl⟩

/-- Claim C3 counterexample: on an empty bus none of the three validation
conditions holds for pluginQ, yet the install does not succeed, because
the body itself throws. -/
theorem plugin_body_throw_not_success :
    List.lookup "q" (Bus.new : Bus Int).plugins = none ∧
    (∀ p ∈ pluginQ.plugin.dependencies, depSatisfied (Bus.new : Bus Int) p.1 p.2) ∧
    (Bus.new : Bus Int).plugin pluginQ () = .error .bodyFailure busZ :=
  ⟨rfl, fun p hp => absurd hp (List.not_mem_nil p), rfl⟩
